import Mathlib

/-!
Shallow embedding of the `cathedral_model` repository (a rules engine for the
Cathedral board game) and verification of its specification claims.

Source files embedded: `src/lib.rs` (Team, Position), `src/position.rs`
(adjacency iterators), `src/piece.rs` (piece catalog, rotation, lifecycle),
`src/board.rs` (board, placement, removal, flood fill).

Modelling conventions:
- Rust `usize` coordinates are modelled as `Nat`.  Where the source relies on
  `usize` wrap-around (`overflowing_add_signed`) the 64-bit width is modelled
  explicitly with the constant `USIZE_CARD = 2 ^ 64`.
- `ndarray::Array2<T>` is modelled as `List (List T)` in row-major order;
  `get((r, c))` is an `Option`-returning lookup, and the interactive
  (playable) view `slice(s![1..-1, 1..-1])` is modelled by `interactiveGet` /
  `interactiveSet` which shift indices by one and enforce the view bounds.
- A Rust panic (out-of-bounds `[]` indexing, `expect`, and `usize` subtraction
  below zero, which panics in debug builds and in release wraps to an index
  that makes the subsequent `tiles.get(..).expect(..)` panic) is modelled by
  returning `none` from the enclosing operation.
- `HashMap<Position, Piece<Placed>>` is modelled as an association list with
  key-unique insert (`piecesInsert` erases any previous binding, as
  `HashMap::insert` overwrites), and `HashSet<Position>` as a duplicate-free
  list in insertion order.
- The recursive flood fill is given explicit fuel; the source recursion is
  bounded by the finite grid, and all theorems below are independent of the
  exact fuel value.
-/

inductive Team where
  | White : Team
  | Black : Team
  | None : Team
deriving DecidableEq, Repr

/-- Mirrors `Team::is_opposing_team` in `src/lib.rs`: only White and Black
oppose each other. -/
def Team.isOpposingTeam : Team → Team → Bool
  | Team.White, Team.Black => true
  | Team.Black, Team.White => true
  | _, _ => false

structure Position where
  x : Nat
  y : Nat
deriving DecidableEq, Repr

instance : Inhabited Position := ⟨⟨0, 0⟩⟩

/-- Mirrors `impl Add for Position` (componentwise addition). -/
instance : Add Position := ⟨fun a b => ⟨a.x + b.x, a.y + b.y⟩⟩

/-- Cardinality of `usize` on the 64-bit target. -/
def USIZE_CARD : Nat := 2 ^ 64

/-- Mirrors `usize::overflowing_add_signed`: returns the wrapped sum and an
overflow flag. -/
def overflowingAddSigned (x : Nat) (t : Int) : Nat × Bool :=
  let s : Int := (x : Int) + t
  if s < 0 then (((s + (USIZE_CARD : Int))).toNat, true)
  else if (USIZE_CARD : Int) ≤ s then ((s - (USIZE_CARD : Int)).toNat, true)
  else (s.toNat, false)

/-- Mirrors the private `Position::adjacent_positions_iter` in
`src/position.rs`: for each signed offset, the neighbour is dropped when the
add overflows or the wrapped coordinate reaches `upper_bound` on that axis. -/
def Position.adjacentPositionsIter (p upperBound : Position)
    (coords : List (Int × Int)) : List Position :=
  coords.filterMap fun t =>
    let xr := overflowingAddSigned p.x t.1
    if xr.2 then none
    else if upperBound.x ≤ xr.1 then none
    else
      let yr := overflowingAddSigned p.y t.2
      if yr.2 then none
      else if upperBound.y ≤ yr.1 then none
      else some ⟨xr.1, yr.1⟩

/-- Offset table of `Position::diagonal_adjacent_positions_iter`. -/
def diagonalOffsets : List (Int × Int) :=
  [(0, 1), (1, 1), (1, 0), (1, -1), (0, -1), (-1, -1), (-1, 0), (-1, 1)]

/-- Offset table of `Position::orthogonal_adjacent_positions_iter`. -/
def orthogonalOffsets : List (Int × Int) :=
  [(0, 1), (1, 0), (0, -1), (-1, 0)]

/-- Mirrors `Position::diagonal_adjacent_positions_iter` in `src/position.rs`. -/
def Position.diagonalAdjacentPositionsIter (p upperBound : Position) : List Position :=
  p.adjacentPositionsIter upperBound diagonalOffsets

/-- Mirrors `Position::orthogonal_adjacent_positions_iter` in `src/position.rs`. -/
def Position.orthogonalAdjacentPositionsIter (p upperBound : Position) : List Position :=
  p.adjacentPositionsIter upperBound orthogonalOffsets

inductive Rotation where
  | UP : Rotation
  | DOWN : Rotation
  | LEFT : Rotation
  | RIGHT : Rotation
deriving DecidableEq, Repr

/-- Mirrors `Rotation::rotated_clockwise`. -/
def Rotation.rotatedClockwise : Rotation → Rotation
  | Rotation.UP => Rotation.RIGHT
  | Rotation.RIGHT => Rotation.DOWN
  | Rotation.DOWN => Rotation.LEFT
  | Rotation.LEFT => Rotation.UP

/-- Mirrors `Rotation::rotated_counterclockwise`. -/
def Rotation.rotatedCounterclockwise : Rotation → Rotation
  | Rotation.UP => Rotation.LEFT
  | Rotation.LEFT => Rotation.DOWN
  | Rotation.DOWN => Rotation.RIGHT
  | Rotation.RIGHT => Rotation.UP

/-- A piece layout: `ndarray::Array2<bool>` as a row-major list of rows. -/
abbrev Layout := List (List Bool)

/-- Number of columns of a layout (`Array2::ncols`; rows are uniform in the
source arrays). -/
def layoutNcols (l : Layout) : Nat := (l.head?.getD []).length

/-- Mirrors `Piece::occupied_coords_iter`: local coordinates `(i, j)` of the
`true` cells in row-major order, packed as `Position { x = i, y = j }` exactly
as `Position::from((i, j))` does in the source. -/
def occupiedCoords (l : Layout) : List Position :=
  (List.range l.length).flatMap fun i =>
    (List.range (layoutNcols l)).filterMap fun j =>
      if (l[i]?.getD []).getD j false then some ⟨i, j⟩ else none

/-- `Piece<Released>` of `src/piece.rs` (the `PhantomData` state is encoded in
the type name). -/
structure PieceR where
  team : Team
  layout : Layout
  position : Position
  rotation : Rotation
deriving DecidableEq, Repr

/-- `Piece<Placed>` of `src/piece.rs`. -/
structure PieceP where
  team : Team
  layout : Layout
  position : Position
  rotation : Rotation
deriving DecidableEq, Repr

/-- Mirrors `Piece::rotate_clockwise` on the layout: `swap_axes(0, 1)`
(transpose) then `invert_axis(Axis(1))` (reverse each row). -/
def rotateLayoutCW (l : Layout) : Layout := l.transpose.map List.reverse

/-- Mirrors `Piece::rotate_counterclockwise` on the layout: `swap_axes(0, 1)`
(transpose) then `invert_axis(Axis(0))` (reverse the row order). -/
def rotateLayoutCCW (l : Layout) : Layout := l.transpose.reverse

/-- Mirrors `Piece::rotate_clockwise` (layout and rotation marker). -/
def PieceR.rotateClockwise (p : PieceR) : PieceR :=
  { p with layout := rotateLayoutCW p.layout,
           rotation := p.rotation.rotatedClockwise }

/-- Mirrors `Piece::rotate_counterclockwise`. -/
def PieceR.rotateCounterclockwise (p : PieceR) : PieceR :=
  { p with layout := rotateLayoutCCW p.layout,
           rotation := p.rotation.rotatedCounterclockwise }

/-- Mirrors `Piece::placed_at`: consumes a released piece, sets the position,
resets the rotation marker to `UP`. -/
def PieceR.placedAt (p : PieceR) (position : Position) : PieceP :=
  { team := p.team, layout := p.layout, position := position,
    rotation := Rotation.UP }

/-- Mirrors `Piece::released`: drops the position, resets rotation to `UP`. -/
def PieceP.released (p : PieceP) : PieceR :=
  { team := p.team, layout := p.layout, position := default,
    rotation := Rotation.UP }

/-- Mirrors `Piece::new_tavern`. -/
def newTavern (team : Team) : PieceR :=
  { team := team, layout := [[true]], position := default, rotation := Rotation.UP }

/-- Mirrors `Piece::new_stable`. -/
def newStable (team : Team) : PieceR :=
  { team := team, layout := [[true], [true]], position := default, rotation := Rotation.UP }

/-- Mirrors `Piece::new_inn`. -/
def newInn (team : Team) : PieceR :=
  { team := team, layout := [[true, true], [true, false]], position := default,
    rotation := Rotation.UP }

/-- Mirrors `Piece::new_bridge`. -/
def newBridge (team : Team) : PieceR :=
  { team := team, layout := [[true], [true], [true]], position := default,
    rotation := Rotation.UP }

/-- Mirrors `Piece::new_square`. -/
def newSquare (team : Team) : PieceR :=
  { team := team, layout := [[true, true], [true, true]], position := default,
    rotation := Rotation.UP }

/-- Mirrors `Piece::new_manor`. -/
def newManor (team : Team) : PieceR :=
  { team := team, layout := [[true, true, true], [false, true, false]],
    position := default, rotation := Rotation.UP }

/-- Layout of the white abbey (`Piece::new_abbey`, `Team::White` arm). -/
def abbeyWhiteLayout : Layout := [[false, true, true], [true, true, false]]

/-- Layout of the black abbey (`Piece::new_abbey`, `Team::Black` arm). -/
def abbeyBlackLayout : Layout := [[true, true, false], [false, true, true]]

/-- Mirrors `Piece::new_abbey`; the `Team::None` arm is `unreachable!` in the
source (a panic), modelled as `none`. -/
def newAbbey (team : Team) : Option PieceR :=
  match team with
  | Team.White =>
    some { team := team, layout := abbeyWhiteLayout, position := default, rotation := Rotation.UP }
  | Team.Black =>
    some { team := team, layout := abbeyBlackLayout, position := default, rotation := Rotation.UP }
  | Team.None => none

/-- Layout of the white academy (`Piece::new_academy`, `Team::White` arm). -/
def academyWhiteLayout : Layout :=
  [[false, false, true], [true, true, true], [false, true, false]]

/-- Layout of the black academy (`Piece::new_academy`, `Team::Black` arm). -/
def academyBlackLayout : Layout :=
  [[true, false, false], [true, true, true], [false, true, false]]

/-- Mirrors `Piece::new_academy`; the `Team::None` arm is `unreachable!`. -/
def newAcademy (team : Team) : Option PieceR :=
  match team with
  | Team.White =>
    some { team := team, layout := academyWhiteLayout, position := default, rotation := Rotation.UP }
  | Team.Black =>
    some { team := team, layout := academyBlackLayout, position := default, rotation := Rotation.UP }
  | Team.None => none

/-- Mirrors `Piece::new_infirmary`. -/
def newInfirmary (team : Team) : PieceR :=
  { team := team,
    layout := [[false, true, false], [true, true, true], [false, true, false]],
    position := default, rotation := Rotation.UP }

/-- Mirrors `Piece::new_castle`. -/
def newCastle (team : Team) : PieceR :=
  { team := team, layout := [[true, true, true], [true, false, true]],
    position := default, rotation := Rotation.UP }

/-- Mirrors `Piece::new_tower`. -/
def newTower (team : Team) : PieceR :=
  { team := team,
    layout := [[false, true, true], [true, true, false], [true, false, false]],
    position := default, rotation := Rotation.UP }

/-- Mirrors `Piece::new_cathedral` (always team `None`, takes no argument). -/
def newCathedral : PieceR :=
  { team := Team.None,
    layout := [[false, true, false], [true, true, true], [false, true, false],
               [false, true, false]],
    position := default, rotation := Rotation.UP }

/-- The named piece kinds of the catalog in `src/piece.rs`. -/
inductive PieceKind where
  | tavern | stable | inn | bridge | square | manor | abbey | academy
  | infirmary | castle | tower | cathedral
deriving DecidableEq, Repr

/-- Canonical shape of a piece kind for a team, through the source
constructors; `none` where the constructor panics (`abbey`/`academy` with
`Team::None`). -/
def pieceShape (k : PieceKind) (t : Team) : Option Layout :=
  match k with
  | PieceKind.tavern => some (newTavern t).layout
  | PieceKind.stable => some (newStable t).layout
  | PieceKind.inn => some (newInn t).layout
  | PieceKind.bridge => some (newBridge t).layout
  | PieceKind.square => some (newSquare t).layout
  | PieceKind.manor => some (newManor t).layout
  | PieceKind.abbey => (newAbbey t).map PieceR.layout
  | PieceKind.academy => (newAcademy t).map PieceR.layout
  | PieceKind.infirmary => some (newInfirmary t).layout
  | PieceKind.castle => some (newCastle t).layout
  | PieceKind.tower => some (newTower t).layout
  | PieceKind.cathedral => some newCathedral.layout

/-- Mirrors `Tile` in `src/board.rs`. -/
inductive Tile where
  | Empty : Team → Tile
  | Occupied : Team → Tile
  | Wall : Tile
deriving DecidableEq, Repr

/-- The tile grid: `ndarray::Array2<Tile>` as a row-major list of rows. -/
abbrev Tiles := List (List Tile)

/-- Number of columns of the grid (rows are uniform in every grid the source
builds). -/
def tilesNcols (t : Tiles) : Nat := (t.head?.getD []).length

/-- Raw lookup `tiles.get((i, j))` on the full grid. -/
def tileGet (t : Tiles) (i j : Nat) : Option Tile :=
  t[i]?.bind fun row => row[j]?

/-- Lookup through the interactive view `tiles.slice(s![1..-1, 1..-1])`: the
view has dimensions `(nrows - 2) × (ncols - 2)` and index `(r, c)` reads the
full-grid cell `(r + 1, c + 1)`. -/
def interactiveGet (t : Tiles) (r c : Nat) : Option Tile :=
  if r < t.length - 2 ∧ c < tilesNcols t - 2 then tileGet t (r + 1) (c + 1)
  else none

/-- Write through the interactive view.  Indexing the view out of range panics
in the source (`tiles[(r, c)] = ...`), modelled as `none`. -/
def interactiveSet (t : Tiles) (r c : Nat) (v : Tile) : Option Tiles :=
  if r < t.length - 2 ∧ c < tilesNcols t - 2 then
    some (t.set (r + 1) ((t[r + 1]?.getD []).set (c + 1) v))
  else none

/-- Mirrors `Board` in `src/board.rs`: the tile grid plus the registry of
placed pieces (`HashMap<Position, Piece<Placed>>` as an association list). -/
structure Board where
  tiles : Tiles
  pieces : List (Position × PieceP)
deriving DecidableEq, Repr

/-- Mirrors `Board::with_size`: a `(size+2) × (size+2)` grid of
`Empty(None)` whose first and last rows and columns are filled with `Wall`. -/
def Board.withSize (size : Nat) : Board :=
  let n := size + 2
  let base : Tiles := List.replicate n (List.replicate n (Tile.Empty Team.None))
  let t1 := base.set 0 (List.replicate n Tile.Wall)
  let t2 := t1.set (size + 1) (List.replicate n Tile.Wall)
  let t3 := t2.map fun row => (row.set 0 Tile.Wall).set (size + 1) Tile.Wall
  { tiles := t3, pieces := [] }

/-- Mirrors `BoardError` as used in `src/board.rs`. -/
inductive BoardError where
  | PieceOutOfBounds : BoardError
  | PieceOnOccupiedTile : BoardError
  | PieceOnEnemyTile : BoardError
  | PieceNotOnBoard : BoardError
deriving DecidableEq, Repr

/-- The cell-check loop of `Board::can_place_piece`, one occupied local
coordinate at a time: the view lookup failing is `PieceOutOfBounds`, then the
tile is matched `Wall` / opposing `Empty` / `Occupied` in the source order. -/
def canPlaceCells (t : Tiles) (team : Team) (position : Position) :
    List Position → Except BoardError Unit
  | [] => Except.ok ()
  | c :: rest =>
    match interactiveGet t (position.y + c.x) (position.x + c.y) with
    | none => Except.error BoardError.PieceOutOfBounds
    | some Tile.Wall => Except.error BoardError.PieceOutOfBounds
    | some (Tile.Empty tm) =>
      if team.isOpposingTeam tm then Except.error BoardError.PieceOnEnemyTile
      else canPlaceCells t team position rest
    | some (Tile.Occupied _) => Except.error BoardError.PieceOnOccupiedTile

/-- Mirrors `Board::can_place_piece`. -/
def Board.canPlacePiece (b : Board) (piece : PieceR) (position : Position) :
    Except BoardError Unit :=
  canPlaceCells b.tiles piece.team position (occupiedCoords piece.layout)

/-- Board cells written for a piece: local cell `{x, y}` goes to view index
`(position.y + x, position.x + y)`, as in the placement and removal loops. -/
def targetCells (position : Position) (coords : List Position) : List (Nat × Nat) :=
  coords.map fun c => (position.y + c.x, position.x + c.y)

/-- Sequence of interactive-view writes of one value; any out-of-range write
panics in the source, so the whole sequence is `none` then. -/
def writeCells (t : Tiles) (cells : List (Nat × Nat)) (v : Tile) : Option Tiles :=
  cells.foldlM (fun acc rc => interactiveSet acc rc.1 rc.2 v) t

/-- Registry lookup (`HashMap::get`-like view of `remove`'s hit test). -/
def piecesLookup (k : Position) (l : List (Position × PieceP)) : Option PieceP :=
  (l.find? fun kv => kv.1 = k).map Prod.snd

/-- Registry deletion (`HashMap::remove` drops the binding of `k`). -/
def piecesErase (k : Position) (l : List (Position × PieceP)) :
    List (Position × PieceP) :=
  l.filter fun kv => kv.1 ≠ k

/-- Registry insertion; `HashMap::insert` replaces any existing binding of the
same key. -/
def piecesInsert (k : Position) (v : PieceP) (l : List (Position × PieceP)) :
    List (Position × PieceP) :=
  piecesErase k l ++ [(k, v)]

/-- Mirrors `Board::try_place_piece_at`: validate, write `Occupied(team)` over
every occupied cell, then register the placed piece under
`position + first_occupied_position`.  The `expect` on an empty layout and any
out-of-range write are panics, modelled as `none`. -/
def Board.tryPlacePieceAt (b : Board) (piece : PieceR) (position : Position) :
    Option (Except BoardError Unit × Board) :=
  match b.canPlacePiece piece position with
  | Except.error e => some (Except.error e, b)
  | Except.ok _ =>
    let placed := piece.placedAt position
    match writeCells b.tiles (targetCells position (occupiedCoords placed.layout))
        (Tile.Occupied placed.team) with
    | none => none
    | some tiles' =>
      match occupiedCoords placed.layout with
      | [] => none
      | c :: _ =>
        some (Except.ok (),
          { tiles := tiles', pieces := piecesInsert (position + c) placed b.pieces })

/-- Mirrors `Board::try_remove_piece`: drop the registry entry at `found_at`
(error `PieceNotOnBoard` when absent, board untouched), then clear every
occupied cell of the *passed* piece, addressed from its own `position`, back
to `Empty(None)`; out-of-range writes panic (`none`). -/
def Board.tryRemovePiece (b : Board) (piece : PieceP) (foundAt : Position) :
    Option (Except BoardError PieceR × Board) :=
  match piecesLookup foundAt b.pieces with
  | none => some (Except.error BoardError.PieceNotOnBoard, b)
  | some _ =>
    match writeCells b.tiles (targetCells piece.position (occupiedCoords piece.layout))
        (Tile.Empty Team.None) with
    | none => none
    | some tiles' =>
      some (Except.ok piece.released,
        { tiles := tiles', pieces := piecesErase foundAt b.pieces })

/-- Mirrors the private `Board::adjacent_positions`: the eight neighbours in
the source order.  The `x - 1` / `y - 1` subtractions are unchecked `usize`
arithmetic: at 0 they panic in debug builds, and in release they wrap to a
huge index on which the very next `tiles.get(..).expect(..)` panics; both are
modelled as `none`. -/
def boardAdjacentPositions (p : Position) : Option (List Position) :=
  if p.x = 0 ∨ p.y = 0 then none
  else
    some [⟨p.x, p.y + 1⟩, ⟨p.x + 1, p.y + 1⟩, ⟨p.x + 1, p.y⟩, ⟨p.x + 1, p.y - 1⟩,
          ⟨p.x, p.y - 1⟩, ⟨p.x - 1, p.y - 1⟩, ⟨p.x - 1, p.y⟩, ⟨p.x - 1, p.y + 1⟩]

/-- Mirrors `Board::is_traversible`: reads the *full* grid at `(p.x, p.y)`;
a failed lookup is an `expect` panic (`none`).  Occupied tiles of another team
and empty tiles are traversible, everything else is not. -/
def Board.isTraversible (b : Board) (p : Position) (team : Team) : Option Bool :=
  match tileGet b.tiles p.x p.y with
  | none => none
  | some (Tile.Occupied t) => some (decide (t ≠ team))
  | some (Tile.Empty _) => some true
  | some Tile.Wall => some false

/-- Insertion into the `HashSet<Position>` model: duplicate-free list, new
elements appended. -/
def posSetInsert (s : List Position) (p : Position) : List Position :=
  if p ∈ s then s else s ++ [p]

/-- Mirrors `Board::flood_fill_positions_into_set`, with explicit fuel for the
recursion (the source recursion is bounded by the finite grid).  Every
adjacent position is added to the set (`set.extend`), then the traversible
ones are recursed into. -/
def Board.floodFillPositionsIntoSet (b : Board) :
    Nat → Position → Team → List Position → Option (List Position)
  | 0, _, _, _ => none
  | fuel + 1, position, team, s =>
    if position ∈ s then some s
    else
      let s := posSetInsert s position
      match boardAdjacentPositions position with
      | none => none
      | some adj =>
        let s := adj.foldl posSetInsert s
        adj.foldlM
          (fun acc p => do
            let tr ← b.isTraversible p team
            if tr then b.floodFillPositionsIntoSet fuel p team acc else pure acc)
          s

/-- Option-monad filter in source order, calling the predicate on each element
as the iterator would (a panic inside the predicate aborts the whole
traversal). -/
def filterOptM (f : Position → Option Bool) : List Position → Option (List Position)
  | [] => some []
  | p :: rest => do
    let keep ← f p
    let tail ← filterOptM f rest
    pure (if keep then p :: tail else tail)

/-- Fuel handed to the flood fill: ample for the finite grid (the theorems
below do not depend on its exact value). -/
def floodFuel (b : Board) : Nat :=
  (b.tiles.length + 2) * (tilesNcols b.tiles + 2) * 16 + 64

/-- Mirrors `Board::tile_groups`: collect the positions adjacent to the
piece's occupied *local* coordinates (the source never translates them by the
piece's board position), deduplicate (`collect::<HashSet<_>>`), keep the
traversible ones, then flood-fill each seed not yet contained in an earlier
group. -/
def Board.tileGroups (b : Board) (piece : PieceP) : Option (List (List Position)) := do
  let adjLists ← (occupiedCoords piece.layout).mapM boardAdjacentPositions
  let collected := (adjLists.flatten).foldl posSetInsert []
  let seeds ← filterOptM (fun p => b.isTraversible p piece.team) collected
  seeds.foldlM
    (fun groups p =>
      if groups.any fun s => p ∈ s then pure groups
      else do
        let s ← b.floodFillPositionsIntoSet (floodFuel b) p piece.team []
        pure (groups ++ [s]))
    []

/-- Tile a local occupied cell `c` of a piece lands on when the piece sits at
`position`: view index `(position.y + c.x, position.x + c.y)`, exactly the
index expression of the placement loops. -/
def targetTile (t : Tiles) (position c : Position) : Option Tile :=
  interactiveGet t (position.y + c.x) (position.x + c.y)

/-- The target of cell `c` falls outside the playable area or on a `Wall`. -/
def cellOutOfBounds (t : Tiles) (position c : Position) : Prop :=
  targetTile t position c = none ∨ targetTile t position c = some Tile.Wall

/-- The target of cell `c` is an `Empty` tile of a team opposing `team`. -/
def cellOnEnemy (t : Tiles) (team : Team) (position c : Position) : Prop :=
  ∃ tm, targetTile t position c = some (Tile.Empty tm) ∧ team.isOpposingTeam tm = true

/-- The target of cell `c` is `Occupied`, by any team. -/
def cellOccupied (t : Tiles) (position c : Position) : Prop :=
  ∃ tm, targetTile t position c = some (Tile.Occupied tm)

/-- Cell `c` clears all three placement checks for `team`: the target exists
in the playable view, is not a `Wall`, is not an opposing `Empty` tile and is
not `Occupied`. -/
def cellClears (t : Tiles) (team : Team) (position c : Position) : Prop :=
  ∃ tl, targetTile t position c = some tl ∧ tl ≠ Tile.Wall ∧
    (∀ tm, tl = Tile.Empty tm → team.isOpposingTeam tm = false) ∧
    (∀ tm, tl ≠ Tile.Occupied tm)

/-- A board cell (view row/column pair) is covered by some registry entry,
i.e. is one of the written cells of some registered placed piece. -/
def registryCoversCell (b : Board) (rc : Nat × Nat) : Bool :=
  b.pieces.any fun kv =>
    rc ∈ targetCells kv.2.position (occupiedCoords kv.2.layout)

/-- A 1×1 playable board whose single interactive tile is `Empty(White)`
(reachable in the source through `get_interactive_tiles_mut`, which the
capture policy uses to credit tiles to a team). -/
def creditedBoard : Board :=
  { tiles := [[Tile.Wall, Tile.Wall, Tile.Wall],
              [Tile.Wall, Tile.Empty Team.White, Tile.Wall],
              [Tile.Wall, Tile.Wall, Tile.Wall]],
    pieces := [] }

/-- A 1×1 playable board holding a placed white tavern registered under its
anchor `(0, 0)`. -/
def removalBoard : Board :=
  { tiles := [[Tile.Wall, Tile.Wall, Tile.Wall],
              [Tile.Wall, Tile.Occupied Team.White, Tile.Wall],
              [Tile.Wall, Tile.Wall, Tile.Wall]],
    pieces := [(⟨0, 0⟩, (newTavern Team.White).placedAt ⟨0, 0⟩)] }

/-- The claim-level notion of an in-range neighbour: `q` is `p` shifted by
the signed offset `d`, both ideal coordinates being at least 0 and strictly
below the upper bound on their axis. -/
def inRangeNeighbor (p upperBound : Position) (d : Int × Int) (q : Position) : Prop :=
  0 ≤ (p.x : Int) + d.1 ∧ (p.x : Int) + d.1 < (upperBound.x : Int) ∧
  0 ≤ (p.y : Int) + d.2 ∧ (p.y : Int) + d.2 < (upperBound.y : Int) ∧
  (q.x : Int) = (p.x : Int) + d.1 ∧ (q.y : Int) = (p.y : Int) + d.2

theorem Position.add_def (a b : Position) : a + b = ⟨a.x + b.x, a.y + b.y⟩ := rfl

theorem canPlaceCells_nil (t : Tiles) (team : Team) (position : Position) :
    canPlaceCells t team position [] = Except.ok () := rfl

theorem canPlaceCells_cons_none (t : Tiles) (team : Team) (position c : Position)
    (rest : List Position)
    (h : interactiveGet t (position.y + c.x) (position.x + c.y) = none) :
    canPlaceCells t team position (c :: rest) =
      Except.error BoardError.PieceOutOfBounds := by
  rw [canPlaceCells, h]

theorem canPlaceCells_cons_wall (t : Tiles) (team : Team) (position c : Position)
    (rest : List Position)
    (h : interactiveGet t (position.y + c.x) (position.x + c.y) = some Tile.Wall) :
    canPlaceCells t team position (c :: rest) =
      Except.error BoardError.PieceOutOfBounds := by
  rw [canPlaceCells, h]

theorem canPlaceCells_cons_empty (t : Tiles) (team : Team) (position c : Position)
    (rest : List Position) (tm : Team)
    (h : interactiveGet t (position.y + c.x) (position.x + c.y) = some (Tile.Empty tm)) :
    canPlaceCells t team position (c :: rest) =
      if team.isOpposingTeam tm then Except.error BoardError.PieceOnEnemyTile
      else canPlaceCells t team position rest := by
  rw [canPlaceCells, h]

theorem canPlaceCells_cons_occupied (t : Tiles) (team : Team) (position c : Position)
    (rest : List Position) (tm : Team)
    (h : interactiveGet t (position.y + c.x) (position.x + c.y) = some (Tile.Occupied tm)) :
    canPlaceCells t team position (c :: rest) =
      Except.error BoardError.PieceOnOccupiedTile := by
  rw [canPlaceCells, h]

theorem canPlaceCells_ok_iff (t : Tiles) (team : Team) (position : Position)
    (l : List Position) :
    canPlaceCells t team position l = Except.ok () ↔
      ∀ c ∈ l, cellClears t team position c := by
  induction l with
  | nil => simp [canPlaceCells_nil]
  | cons c rest ih =>
    simp only [List.mem_cons, forall_eq_or_imp]
    cases h : interactiveGet t (position.y + c.x) (position.x + c.y) with
    | none =>
      rw [canPlaceCells_cons_none t team position c rest h]
      constructor
      · intro hcontra; cases hcontra
      · rintro ⟨⟨tl, htl, -⟩, -⟩
        rw [targetTile, h] at htl; cases htl
    | some tl =>
      cases tl with
      | Wall =>
        rw [canPlaceCells_cons_wall t team position c rest h]
        constructor
        · intro hcontra; cases hcontra
        · rintro ⟨⟨tl', htl', hw, -⟩, -⟩
          rw [targetTile, h] at htl'
          cases htl'; exact absurd rfl hw
      | Empty tm =>
        rw [canPlaceCells_cons_empty t team position c rest tm h]
        by_cases hop : team.isOpposingTeam tm = true
        · rw [if_pos hop]
          constructor
          · intro hcontra; cases hcontra
          · rintro ⟨⟨tl', htl', -, hemp, -⟩, -⟩
            rw [targetTile, h] at htl'
            cases htl'
            rw [hemp tm rfl] at hop; cases hop
        · rw [if_neg hop, ih]
          have hclear : cellClears t team position c :=
            ⟨Tile.Empty tm, by rw [targetTile, h], by simp,
             fun tm' htm' => by cases htm'; simpa using hop,
             fun tm' => by simp⟩
          constructor
          · intro hrest; exact ⟨hclear, hrest⟩
          · rintro ⟨-, hrest⟩; exact hrest
      | Occupied tm =>
        rw [canPlaceCells_cons_occupied t team position c rest tm h]
        constructor
        · intro hcontra; cases hcontra
        · rintro ⟨⟨tl', htl', -, -, hocc⟩, -⟩
          rw [targetTile, h] at htl'
          cases htl'; exact absurd rfl (hocc tm)

theorem canPlaceCells_oob (t : Tiles) (team : Team) (position : Position)
    (l : List Position)
    (h : canPlaceCells t team position l = Except.error BoardError.PieceOutOfBounds) :
    ∃ c ∈ l, cellOutOfBounds t position c := by
  induction l with
  | nil => cases h
  | cons c rest ih =>
    cases hg : interactiveGet t (position.y + c.x) (position.x + c.y) with
    | none =>
      exact ⟨c, List.mem_cons_self .., Or.inl (by rw [targetTile, hg])⟩
    | some tl =>
      cases tl with
      | Wall => exact ⟨c, List.mem_cons_self .., Or.inr (by rw [targetTile, hg])⟩
      | Empty tm =>
        rw [canPlaceCells_cons_empty t team position c rest tm hg] at h
        by_cases hop : team.isOpposingTeam tm = true
        · rw [if_pos hop] at h; cases h
        · rw [if_neg hop] at h
          obtain ⟨c', hc', hcell⟩ := ih h
          exact ⟨c', List.mem_cons_of_mem _ hc', hcell⟩
      | Occupied tm =>
        rw [canPlaceCells_cons_occupied t team position c rest tm hg] at h; cases h

theorem canPlaceCells_enemy (t : Tiles) (team : Team) (position : Position)
    (l : List Position)
    (h : canPlaceCells t team position l = Except.error BoardError.PieceOnEnemyTile) :
    ∃ c ∈ l, cellOnEnemy t team position c := by
  induction l with
  | nil => cases h
  | cons c rest ih =>
    cases hg : interactiveGet t (position.y + c.x) (position.x + c.y) with
    | none => rw [canPlaceCells_cons_none t team position c rest hg] at h; cases h
    | some tl =>
      cases tl with
      | Wall => rw [canPlaceCells_cons_wall t team position c rest hg] at h; cases h
      | Empty tm =>
        by_cases hop : team.isOpposingTeam tm = true
        · exact ⟨c, List.mem_cons_self .., tm, by rw [targetTile, hg], hop⟩
        · rw [canPlaceCells_cons_empty t team position c rest tm hg, if_neg hop] at h
          obtain ⟨c', hc', hcell⟩ := ih h
          exact ⟨c', List.mem_cons_of_mem _ hc', hcell⟩
      | Occupied tm =>
        rw [canPlaceCells_cons_occupied t team position c rest tm hg] at h; cases h

theorem canPlaceCells_occupied (t : Tiles) (team : Team) (position : Position)
    (l : List Position)
    (h : canPlaceCells t team position l = Except.error BoardError.PieceOnOccupiedTile) :
    ∃ c ∈ l, cellOccupied t position c := by
  induction l with
  | nil => cases h
  | cons c rest ih =>
    cases hg : interactiveGet t (position.y + c.x) (position.x + c.y) with
    | none => rw [canPlaceCells_cons_none t team position c rest hg] at h; cases h
    | some tl =>
      cases tl with
      | Wall => rw [canPlaceCells_cons_wall t team position c rest hg] at h; cases h
      | Empty tm =>
        rw [canPlaceCells_cons_empty t team position c rest tm hg] at h
        by_cases hop : team.isOpposingTeam tm = true
        · rw [if_pos hop] at h; cases h
        · rw [if_neg hop] at h
          obtain ⟨c', hc', hcell⟩ := ih h
          exact ⟨c', List.mem_cons_of_mem _ hc', hcell⟩
      | Occupied tm =>
        exact ⟨c, List.mem_cons_self .., tm, by rw [targetTile, hg]⟩

theorem canPlaceCells_ne_not_on_board (t : Tiles) (team : Team) (position : Position)
    (l : List Position) :
    canPlaceCells t team position l ≠ Except.error BoardError.PieceNotOnBoard := by
  induction l with
  | nil => intro h; cases h
  | cons c rest ih =>
    intro h
    cases hg : interactiveGet t (position.y + c.x) (position.x + c.y) with
    | none => rw [canPlaceCells_cons_none t team position c rest hg] at h; cases h
    | some tl =>
      cases tl with
      | Wall => rw [canPlaceCells_cons_wall t team position c rest hg] at h; cases h
      | Empty tm =>
        rw [canPlaceCells_cons_empty t team position c rest tm hg] at h
        by_cases hop : team.isOpposingTeam tm = true
        · rw [if_pos hop] at h; cases h
        · rw [if_neg hop] at h; exact ih h
      | Occupied tm =>
        rw [canPlaceCells_cons_occupied t team position c rest tm hg] at h; cases h

/-- C1: for every released piece and target position, `can_place_piece`
checks each occupied cell at `target = position + cell`, bounds first: it
succeeds exactly when every occupied cell clears all three checks, an
`PieceOutOfBounds` failure means some cell's target is outside the playable
view or a `Wall`, a `PieceOnEnemyTile` failure means some cell's target is an
`Empty` tile of an opposing team (White and Black oppose each other, `None`
opposes neither), and a `PieceOnOccupiedTile` failure means some cell's
target is `Occupied`, regardless of team. -/
theorem canPlacePiece_spec (b : Board) (piece : PieceR) (position : Position) :
    (b.canPlacePiece piece position = Except.ok () ↔
      ∀ c ∈ occupiedCoords piece.layout, cellClears b.tiles piece.team position c) ∧
    (b.canPlacePiece piece position = Except.error BoardError.PieceOutOfBounds →
      ∃ c ∈ occupiedCoords piece.layout, cellOutOfBounds b.tiles position c) ∧
    (b.canPlacePiece piece position = Except.error BoardError.PieceOnEnemyTile →
      ∃ c ∈ occupiedCoords piece.layout, cellOnEnemy b.tiles piece.team position c) ∧
    (b.canPlacePiece piece position = Except.error BoardError.PieceOnOccupiedTile →
      ∃ c ∈ occupiedCoords piece.layout, cellOccupied b.tiles position c) ∧
    b.canPlacePiece piece position ≠ Except.error BoardError.PieceNotOnBoard :=
  ⟨canPlaceCells_ok_iff b.tiles piece.team position (occupiedCoords piece.layout),
   canPlaceCells_oob b.tiles piece.team position (occupiedCoords piece.layout),
   canPlaceCells_enemy b.tiles piece.team position (occupiedCoords piece.layout),
   canPlaceCells_occupied b.tiles piece.team position (occupiedCoords piece.layout),
   canPlaceCells_ne_not_on_board b.tiles piece.team position (occupiedCoords piece.layout)⟩

/-- Witness for `canPlacePiece_spec`: a white tavern at `(10, 0)` on the
default-size board is rejected as out of bounds, and the theorem locates the
offending cell. -/
theorem canPlacePiece_spec_witness :
    ∃ c ∈ occupiedCoords (newTavern Team.White).layout,
      cellOutOfBounds (Board.withSize 10).tiles ⟨10, 0⟩ c :=
  (canPlacePiece_spec (Board.withSize 10) (newTavern Team.White) ⟨10, 0⟩).2.1 rfl

theorem interactiveSet_isSome (t : Tiles) (r c : Nat) (v : Tile) (x : Tile)
    (hg : interactiveGet t r c = some x) :
    interactiveSet t r c v =
      some (t.set (r + 1) ((t[r + 1]?.getD []).set (c + 1) v)) := by
  rw [interactiveGet] at hg
  rw [interactiveSet]
  split at hg
  · rw [if_pos (by assumption)]
  · cases hg

theorem interactiveSet_length (t t' : Tiles) (r c : Nat) (v : Tile)
    (h : interactiveSet t r c v = some t') : t'.length = t.length := by
  rw [interactiveSet] at h
  split at h
  · cases h; simp
  · cases h

theorem interactiveSet_rowLengths (t t' : Tiles) (r c : Nat) (v : Tile)
    (h : interactiveSet t r c v = some t') :
    ∀ i : Nat, t'[i]?.map List.length = t[i]?.map List.length := by
  rw [interactiveSet] at h
  split at h
  · cases h
    intro i
    rw [List.getElem?_set]
    by_cases hi : r + 1 = i
    · subst hi
      have hlen : r + 1 < t.length := by omega
      rw [if_pos rfl, if_pos hlen, List.getElem?_eq_getElem hlen]
      simp [List.getD]
    · rw [if_neg hi]
  · cases h

theorem interactiveSet_ncols (t t' : Tiles) (r c : Nat) (v : Tile)
    (h : interactiveSet t r c v = some t') : tilesNcols t' = tilesNcols t := by
  have hrow := interactiveSet_rowLengths t t' r c v h 0
  rw [tilesNcols, tilesNcols, List.head?_eq_getElem?, List.head?_eq_getElem?]
  cases h0 : t[0]? <;> cases h0' : t'[0]? <;> simp_all

theorem interactiveGet_set_self (t t' : Tiles) (r c : Nat) (v : Tile) (x : Tile)
    (hg : interactiveGet t r c = some x)
    (h : interactiveSet t r c v = some t') :
    interactiveGet t' r c = some v := by
  have hlen := interactiveSet_length t t' r c v h
  have hnc := interactiveSet_ncols t t' r c v h
  rw [interactiveGet] at hg
  rw [interactiveSet] at h
  split at hg
  case isFalse => cases hg
  case isTrue hc =>
    rw [if_pos hc] at h
    injection h with h
    subst h
    rw [interactiveGet, hlen, hnc, if_pos hc]
    rw [tileGet] at hg ⊢
    have hrl : r + 1 < t.length := by omega
    rw [List.getElem?_eq_getElem hrl] at hg
    simp only [Option.some_bind] at hg
    have hcl : c + 1 < (t[r + 1]).length := (List.getElem?_eq_some_iff.mp hg).1
    rw [List.getElem?_set_self hrl, Option.some_bind, List.getElem?_eq_getElem hrl,
        Option.getD_some, List.getElem?_set_self hcl]

theorem tileGet_set_other (t t' : Tiles) (r c : Nat) (v : Tile)
    (h : interactiveSet t r c v = some t') (i j : Nat)
    (hne : ¬(i = r + 1 ∧ j = c + 1)) :
    tileGet t' i j = tileGet t i j := by
  rw [interactiveSet] at h
  split at h
  case isFalse => cases h
  case isTrue hc =>
    injection h with h
    subst h
    rw [tileGet, tileGet, List.getElem?_set]
    by_cases hr : r + 1 = i
    · subst hr
      have hrl : r + 1 < t.length := by omega
      rw [if_pos rfl, if_pos hrl, Option.some_bind, List.getElem?_eq_getElem hrl,
          Option.getD_some, List.getElem?_set_ne (by omega), Option.some_bind]
    · rw [if_neg hr]

theorem interactiveGet_set_other (t t' : Tiles) (r c : Nat) (v : Tile)
    (h : interactiveSet t r c v = some t') (r' c' : Nat)
    (hne : ¬(r' = r ∧ c' = c)) :
    interactiveGet t' r' c' = interactiveGet t r' c' := by
  have hlen := interactiveSet_length t t' r c v h
  have hnc := interactiveSet_ncols t t' r c v h
  rw [interactiveGet, interactiveGet, hlen, hnc]
  split
  case isFalse => rfl
  case isTrue hcond =>
    exact tileGet_set_other t t' r c v h (r' + 1) (c' + 1) (by omega)

theorem writeCells_spec (v : Tile) (cells : List (Nat × Nat)) :
    ∀ (t : Tiles),
      (∀ rc ∈ cells, (interactiveGet t rc.1 rc.2).isSome = true) →
      ∃ t', writeCells t cells v = some t' ∧
        t'.length = t.length ∧
        (∀ i : Nat, t'[i]?.map List.length = t[i]?.map List.length) ∧
        (∀ r c : Nat, (r, c) ∈ cells → interactiveGet t' r c = some v) ∧
        (∀ r c : Nat, (r, c) ∉ cells → interactiveGet t' r c = interactiveGet t r c) ∧
        (∀ i j : Nat, (∀ rc ∈ cells, ¬(i = rc.1 + 1 ∧ j = rc.2 + 1)) →
          tileGet t' i j = tileGet t i j) := by
  induction cells with
  | nil =>
    intro t _
    exact ⟨t, rfl, rfl, fun i => rfl, by simp, fun r c _ => rfl, fun i j _ => rfl⟩
  | cons rc rest ih =>
    obtain ⟨a, b⟩ := rc
    intro t hsome
    obtain ⟨x, hx⟩ :=
      Option.isSome_iff_exists.mp (hsome (a, b) (List.mem_cons_self ..))
    obtain ⟨t0, hset⟩ : ∃ t0, interactiveSet t a b v = some t0 :=
      ⟨_, interactiveSet_isSome t a b v x hx⟩
    have hself := interactiveGet_set_self t t0 a b v x hx hset
    have hsome0 : ∀ rc' ∈ rest, (interactiveGet t0 rc'.1 rc'.2).isSome = true := by
      intro rc' hrc'
      by_cases heq : rc'.1 = a ∧ rc'.2 = b
      · rw [heq.1, heq.2, hself]; rfl
      · rw [interactiveGet_set_other t t0 a b v hset rc'.1 rc'.2 heq]
        exact hsome rc' (List.mem_cons_of_mem _ hrc')
    obtain ⟨t', hw, hlen, hrows, hhit, hmiss, hraw⟩ := ih t0 hsome0
    have hw' : writeCells t ((a, b) :: rest) v = some t' := by
      rw [writeCells, List.foldlM_cons]
      show (interactiveSet t a b v).bind
        (fun b' => rest.foldlM (fun acc rc => interactiveSet acc rc.1 rc.2 v) b') = some t'
      rw [hset, Option.some_bind]
      exact hw
    refine ⟨t', hw', ?_, ?_, ?_, ?_, ?_⟩
    · rw [hlen, interactiveSet_length t t0 a b v hset]
    · intro i
      rw [hrows i, interactiveSet_rowLengths t t0 a b v hset i]
    · intro r c hmem
      rcases List.mem_cons.mp hmem with heq | hmem'
      · obtain ⟨hr, hc⟩ := Prod.mk.injEq .. ▸ heq
        subst hr; subst hc
        by_cases hmem2 : (r, c) ∈ rest
        · exact hhit r c hmem2
        · rw [hmiss r c hmem2]; exact hself
      · exact hhit r c hmem'
    · intro r c hnm
      have h2 : (r, c) ∉ rest := fun hq => hnm (List.mem_cons_of_mem _ hq)
      have h1 : ¬(r = a ∧ c = b) := by
        rintro ⟨rfl, rfl⟩; exact hnm (List.mem_cons_self ..)
      rw [hmiss r c h2, interactiveGet_set_other t t0 a b v hset r c h1]
    · intro i j hnone
      rw [hraw i j (fun rc' h' => hnone rc' (List.mem_cons_of_mem _ h')),
          tileGet_set_other t t0 a b v hset i j (hnone (a, b) (List.mem_cons_self ..))]

theorem canPlaceCells_ok_targets_isSome (t : Tiles) (team : Team) (position : Position)
    (l : List Position) (h : canPlaceCells t team position l = Except.ok ()) :
    ∀ rc ∈ targetCells position l, (interactiveGet t rc.1 rc.2).isSome = true := by
  intro rc hrc
  rw [targetCells] at hrc
  obtain ⟨c, hc, rfl⟩ := List.mem_map.mp hrc
  obtain ⟨tl, htl, -⟩ := (canPlaceCells_ok_iff t team position l).mp h c hc
  rw [targetTile] at htl
  simp [htl]

theorem tryPlacePieceAt_ok_reduce (b : Board) (piece : PieceR) (position : Position)
    (hok : b.canPlacePiece piece position = Except.ok ()) :
    b.tryPlacePieceAt piece position =
      match writeCells b.tiles (targetCells position (occupiedCoords piece.layout))
          (Tile.Occupied piece.team) with
      | none => none
      | some tiles' =>
        match occupiedCoords piece.layout with
        | [] => none
        | c :: _ =>
          some (Except.ok (),
            { tiles := tiles',
              pieces := piecesInsert (position + c) (piece.placedAt position) b.pieces }) := by
  rw [Board.tryPlacePieceAt, hok]
  rfl

theorem tryPlacePieceAt_err_reduce (b : Board) (piece : PieceR) (position : Position)
    (e : BoardError) (herr : b.canPlacePiece piece position = Except.error e) :
    b.tryPlacePieceAt piece position = some (Except.error e, b) := by
  rw [Board.tryPlacePieceAt, herr]

/-- C5 (amended): for every released piece with a nonempty set of occupied
cells (true of every catalog piece) and every position at which placement is
legal, `try_place_piece_at` succeeds returning `Ok(())`, marks every occupied
cell of the piece `Occupied(piece.team)` leaving all other tiles unchanged,
and records exactly one registry binding keyed by the anchor
`position + first_occupied_local_cell` mapping to the now-`Placed` piece; the
placed piece is stored in the registry, not returned to the caller. -/
theorem tryPlacePieceAt_success_spec (b : Board) (piece : PieceR) (position : Position)
    (c0 : Position) (rest : List Position)
    (hcoords : occupiedCoords piece.layout = c0 :: rest)
    (hok : b.canPlacePiece piece position = Except.ok ()) :
    ∃ b', b.tryPlacePieceAt piece position = some (Except.ok (), b') ∧
      b'.pieces = piecesInsert (position + c0) (piece.placedAt position) b.pieces ∧
      (∀ c ∈ occupiedCoords piece.layout,
        interactiveGet b'.tiles (position.y + c.x) (position.x + c.y) =
          some (Tile.Occupied piece.team)) ∧
      (∀ r c : Nat, (r, c) ∉ targetCells position (occupiedCoords piece.layout) →
        interactiveGet b'.tiles r c = interactiveGet b.tiles r c) := by
  obtain ⟨tiles', hw, hlen, hrows, hhit, hmiss, hraw⟩ :=
    writeCells_spec (Tile.Occupied piece.team)
      (targetCells position (occupiedCoords piece.layout)) b.tiles
      (canPlaceCells_ok_targets_isSome b.tiles piece.team position
        (occupiedCoords piece.layout) hok)
  refine ⟨{ tiles := tiles',
            pieces := piecesInsert (position + c0) (piece.placedAt position) b.pieces },
          ?_, rfl, ?_, ?_⟩
  · rw [tryPlacePieceAt_ok_reduce b piece position hok, hw, hcoords]
  · intro c hc
    exact hhit (position.y + c.x) (position.x + c.y)
      (by rw [targetCells]; exact List.mem_map.mpr ⟨c, hc, rfl⟩)
  · intro r c hnm
    exact hmiss r c hnm

/-- Counterexample to C5 as stated: at a concrete legal placement the success
value of `try_place_piece_at` is the unit value `()` (the function's success
type is `Result<(), _>`), so the `Placed` piece is not returned to the
caller. -/
theorem tryPlacePieceAt_returns_unit_not_piece :
    ((Board.withSize 10).tryPlacePieceAt (newTavern Team.White) ⟨0, 0⟩).map Prod.fst =
      some (Except.ok ()) := by rfl

/-- Witness for `tryPlacePieceAt_success_spec`: a white tavern legally placed
at `(3, 4)` on the default board. -/
theorem tryPlacePieceAt_success_spec_witness :
    ∃ b', (Board.withSize 10).tryPlacePieceAt (newTavern Team.White) ⟨3, 4⟩ =
        some (Except.ok (), b') ∧
      b'.pieces = piecesInsert (Position.mk 3 4 + Position.mk 0 0)
        ((newTavern Team.White).placedAt ⟨3, 4⟩) (Board.withSize 10).pieces ∧
      (∀ c ∈ occupiedCoords (newTavern Team.White).layout,
        interactiveGet b'.tiles (4 + c.x) (3 + c.y) =
          some (Tile.Occupied Team.White)) ∧
      (∀ r c : Nat, (r, c) ∉ targetCells ⟨3, 4⟩
          (occupiedCoords (newTavern Team.White).layout) →
        interactiveGet b'.tiles r c = interactiveGet (Board.withSize 10).tiles r c) :=
  tryPlacePieceAt_success_spec (Board.withSize 10) (newTavern Team.White) ⟨3, 4⟩
    ⟨0, 0⟩ [] rfl rfl

/-- C6 (amended): `try_place_piece_at` returns the placement error exactly
when validation fails, and then the returned board is the input board
unchanged (same tiles, same registry).  The released piece itself is moved
into the function and dropped on failure — the `Result<(), BoardError>`
return value carries no piece, so ownership is not returned to the caller. -/
theorem tryPlacePieceAt_failure_spec (b : Board) (piece : PieceR) (position : Position)
    (e : BoardError) (b2 : Board) :
    b.tryPlacePieceAt piece position = some (Except.error e, b2) ↔
      (b.canPlacePiece piece position = Except.error e ∧ b2 = b) := by
  constructor
  · intro h
    cases hc : b.canPlacePiece piece position with
    | error e' =>
      rw [tryPlacePieceAt_err_reduce b piece position e' hc] at h
      injection h with h
      obtain ⟨he, hb⟩ := Prod.mk.injEq .. ▸ h
      injection he with he
      exact ⟨he ▸ rfl, hb.symm ▸ rfl⟩
    | ok u =>
      cases u
      rw [tryPlacePieceAt_ok_reduce b piece position hc] at h
      cases hw : writeCells b.tiles (targetCells position (occupiedCoords piece.layout))
          (Tile.Occupied piece.team) with
      | none => rw [hw] at h; cases h
      | some tiles' =>
        rw [hw] at h
        cases hl : occupiedCoords piece.layout with
        | nil => rw [hl] at h; cases h
        | cons c0 rest =>
          rw [hl] at h
          injection h with h
          obtain ⟨he, -⟩ := Prod.mk.injEq .. ▸ h
          cases he
  · rintro ⟨h, rfl⟩
    exact tryPlacePieceAt_err_reduce _ piece position e h

/-- Counterexample to C6 as stated: at a concrete illegal placement the whole
result of `try_place_piece_at` is just the error and the unchanged board —
the returned value contains no piece, so the released piece (moved into the
call) is not handed back to the caller. -/
theorem tryPlacePieceAt_failure_result_is_bare_error :
    (Board.withSize 10).tryPlacePieceAt (newTavern Team.White) ⟨10, 0⟩ =
      some (Except.error BoardError.PieceOutOfBounds, Board.withSize 10) := by rfl

/-- Witness for `tryPlacePieceAt_failure_spec`: an inn dropped at `(0, 9)`
overflows the bottom edge and the board is returned unchanged. -/
theorem tryPlacePieceAt_failure_spec_witness :
    (Board.withSize 10).tryPlacePieceAt (newInn Team.White) ⟨0, 9⟩ =
      some (Except.error BoardError.PieceOutOfBounds, Board.withSize 10) :=
  (tryPlacePieceAt_failure_spec (Board.withSize 10) (newInn Team.White) ⟨0, 9⟩
    BoardError.PieceOutOfBounds (Board.withSize 10)).mpr ⟨rfl, rfl⟩

theorem tryRemovePiece_none_reduce (b : Board) (piece : PieceP) (fa : Position)
    (h : piecesLookup fa b.pieces = none) :
    b.tryRemovePiece piece fa =
      some (Except.error BoardError.PieceNotOnBoard, b) := by
  rw [Board.tryRemovePiece, h]

theorem tryRemovePiece_some_reduce (b : Board) (piece : PieceP) (fa : Position)
    (q : PieceP) (h : piecesLookup fa b.pieces = some q) :
    b.tryRemovePiece piece fa =
      match writeCells b.tiles (targetCells piece.position (occupiedCoords piece.layout))
          (Tile.Empty Team.None) with
      | none => none
      | some tiles' =>
        some (Except.ok piece.released,
          { tiles := tiles', pieces := piecesErase fa b.pieces }) := by
  rw [Board.tryRemovePiece, h]

/-- C7: `try_remove_piece` fails with `PieceNotOnBoard` — leaving the board
untouched — exactly when no registered piece matches the lookup position;
otherwise (whenever the passed piece's occupied cells address valid playable
tiles, as they do for any piece the board itself placed) it clears every one
of that piece's occupied tiles back to `Empty(None)`, leaves every other tile
unchanged, deletes the registry entry, and returns the piece in the
`Released` state. -/
theorem tryRemovePiece_spec (b : Board) (piece : PieceP) (fa : Position) :
    (b.tryRemovePiece piece fa = some (Except.error BoardError.PieceNotOnBoard, b) ↔
      piecesLookup fa b.pieces = none) ∧
    (∀ q, piecesLookup fa b.pieces = some q →
      (∀ rc ∈ targetCells piece.position (occupiedCoords piece.layout),
          (interactiveGet b.tiles rc.1 rc.2).isSome = true) →
      ∃ b', b.tryRemovePiece piece fa = some (Except.ok piece.released, b') ∧
        b'.pieces = piecesErase fa b.pieces ∧
        (∀ c ∈ occupiedCoords piece.layout,
          interactiveGet b'.tiles (piece.position.y + c.x) (piece.position.x + c.y) =
            some (Tile.Empty Team.None)) ∧
        (∀ r c : Nat, (r, c) ∉ targetCells piece.position (occupiedCoords piece.layout) →
          interactiveGet b'.tiles r c = interactiveGet b.tiles r c)) := by
  constructor
  · constructor
    · intro h
      cases hl : piecesLookup fa b.pieces with
      | none => rfl
      | some q =>
        rw [tryRemovePiece_some_reduce b piece fa q hl] at h
        cases hw : writeCells b.tiles
            (targetCells piece.position (occupiedCoords piece.layout))
            (Tile.Empty Team.None) with
        | none => rw [hw] at h; cases h
        | some tiles' =>
          rw [hw] at h
          injection h with h
          obtain ⟨he, -⟩ := Prod.mk.injEq .. ▸ h
          cases he
    · intro h
      exact tryRemovePiece_none_reduce b piece fa h
  · intro q hl hsome
    obtain ⟨tiles', hw, hlen, hrows, hhit, hmiss, hraw⟩ :=
      writeCells_spec (Tile.Empty Team.None)
        (targetCells piece.position (occupiedCoords piece.layout)) b.tiles hsome
    refine ⟨{ tiles := tiles', pieces := piecesErase fa b.pieces }, ?_, rfl, ?_, ?_⟩
    · rw [tryRemovePiece_some_reduce b piece fa q hl, hw]
    · intro c hc
      exact hhit (piece.position.y + c.x) (piece.position.x + c.y)
        (by rw [targetCells]; exact List.mem_map.mpr ⟨c, hc, rfl⟩)
    · intro r c hnm
      exact hmiss r c hnm

/-- Witness for `tryRemovePiece_spec`: removing the registered white tavern
from `removalBoard` clears its tile and empties the registry. -/
theorem tryRemovePiece_spec_witness :
    ∃ b', removalBoard.tryRemovePiece ((newTavern Team.White).placedAt ⟨0, 0⟩) ⟨0, 0⟩ =
        some (Except.ok ((newTavern Team.White).placedAt ⟨0, 0⟩).released, b') ∧
      b'.pieces = piecesErase ⟨0, 0⟩ removalBoard.pieces ∧
      (∀ c ∈ occupiedCoords ((newTavern Team.White).placedAt ⟨0, 0⟩).layout,
        interactiveGet b'.tiles (0 + c.x) (0 + c.y) = some (Tile.Empty Team.None)) ∧
      (∀ r c : Nat, (r, c) ∉ targetCells ⟨0, 0⟩
          (occupiedCoords ((newTavern Team.White).placedAt ⟨0, 0⟩).layout) →
        interactiveGet b'.tiles r c = interactiveGet removalBoard.tiles r c) :=
  (tryRemovePiece_spec removalBoard ((newTavern Team.White).placedAt ⟨0, 0⟩) ⟨0, 0⟩).2
    ((newTavern Team.White).placedAt ⟨0, 0⟩) rfl (by decide)

theorem interactiveGet_some_tileGet (t : Tiles) (r c : Nat) (x : Tile)
    (h : interactiveGet t r c = some x) : tileGet t (r + 1) (c + 1) = some x := by
  rw [interactiveGet] at h
  split at h
  · exact h
  · cases h

theorem piecesLookup_insert_self (k : Position) (v : PieceP)
    (l : List (Position × PieceP)) :
    piecesLookup k (piecesInsert k v l) = some v := by
  rw [piecesInsert, piecesLookup, List.find?_append]
  have hnone : (piecesErase k l).find? (fun kv => kv.1 = k) = none := by
    rw [List.find?_eq_none]
    intro kv hkv
    rw [piecesErase] at hkv
    have hp := (List.mem_filter.mp hkv).2
    simpa using hp
  rw [hnone, Option.none_or]
  simp [List.find?]

/-- C4 (amended): for every board, released piece with at least one occupied
cell, and legal position all of whose covered tiles are `Empty(None)` (as on
any board reachable by placements and removals alone), placing the piece and
then removing it through its anchor `position + first_occupied_local_cell`
restores the tile grid bit-for-bit.  On tiles credited `Empty(team)` the
roundtrip is not the identity, because removal always writes `Empty(None)`. -/
theorem place_remove_roundtrip (b : Board) (piece : PieceR) (position : Position)
    (c0 : Position) (rest : List Position)
    (hcoords : occupiedCoords piece.layout = c0 :: rest)
    (hok : b.canPlacePiece piece position = Except.ok ())
    (hemp : ∀ c ∈ occupiedCoords piece.layout,
      interactiveGet b.tiles (position.y + c.x) (position.x + c.y) =
        some (Tile.Empty Team.None)) :
    ∃ b1 b2, b.tryPlacePieceAt piece position = some (Except.ok (), b1) ∧
      b1.tryRemovePiece (piece.placedAt position) (position + c0) =
        some (Except.ok (piece.placedAt position).released, b2) ∧
      b2.tiles = b.tiles := by
  obtain ⟨t1, hw1, hlen1, hrows1, hhit1, hmiss1, hraw1⟩ :=
    writeCells_spec (Tile.Occupied piece.team)
      (targetCells position (occupiedCoords piece.layout)) b.tiles
      (canPlaceCells_ok_targets_isSome b.tiles piece.team position
        (occupiedCoords piece.layout) hok)
  have hsome1 : ∀ rc ∈ targetCells position (occupiedCoords piece.layout),
      (interactiveGet t1 rc.1 rc.2).isSome = true := by
    intro rc hrc
    obtain ⟨a, c⟩ := rc
    rw [hhit1 a c hrc]
    rfl
  obtain ⟨t2, hw2, hlen2, hrows2, hhit2, hmiss2, hraw2⟩ :=
    writeCells_spec (Tile.Empty Team.None)
      (targetCells position (occupiedCoords piece.layout)) t1 hsome1
  have hb1eq : b.tryPlacePieceAt piece position = some (Except.ok (),
      { tiles := t1,
        pieces := piecesInsert (position + c0) (piece.placedAt position) b.pieces }) := by
    rw [tryPlacePieceAt_ok_reduce b piece position hok, hw1, hcoords]
  have hlook : piecesLookup (position + c0)
      (piecesInsert (position + c0) (piece.placedAt position) b.pieces) =
      some (piece.placedAt position) :=
    piecesLookup_insert_self (position + c0) (piece.placedAt position) b.pieces
  refine ⟨_, Board.mk t2 (piecesErase (position + c0)
      (piecesInsert (position + c0) (piece.placedAt position) b.pieces)),
    hb1eq, ?_, ?_⟩
  · rw [tryRemovePiece_some_reduce _ (piece.placedAt position) (position + c0)
      (piece.placedAt position) hlook]
    show (match writeCells t1 (targetCells position (occupiedCoords piece.layout))
        (Tile.Empty Team.None) with
      | none => none
      | some tiles' =>
        some (Except.ok (piece.placedAt position).released,
          Board.mk tiles' (piecesErase (position + c0)
            (piecesInsert (position + c0) (piece.placedAt position) b.pieces)))) = _
    rw [hw2]
  · apply List.ext_getElem?
    intro i
    have hrowlen : t2[i]?.map List.length = b.tiles[i]?.map List.length := by
      rw [hrows2 i, hrows1 i]
    have hcellEq : ∀ j : Nat, tileGet t2 i j = tileGet b.tiles i j := by
      intro j
      by_cases hsh : ∃ rc ∈ targetCells position (occupiedCoords piece.layout),
          i = rc.1 + 1 ∧ j = rc.2 + 1
      · obtain ⟨rc, hrc, hi, hj⟩ := hsh
        obtain ⟨a, cc⟩ := rc
        subst hi; subst hj
        have h2 := hhit2 a cc hrc
        have horig : interactiveGet b.tiles a cc = some (Tile.Empty Team.None) := by
          rw [targetCells] at hrc
          obtain ⟨c, hc, hcq⟩ := List.mem_map.mp hrc
          obtain ⟨ha, hcc⟩ := Prod.mk.injEq .. ▸ hcq.symm
          rw [ha, hcc]
          exact hemp c hc
        rw [interactiveGet_some_tileGet t2 a cc (Tile.Empty Team.None) h2,
            interactiveGet_some_tileGet b.tiles a cc (Tile.Empty Team.None) horig]
      · have hn : ∀ rc ∈ targetCells position (occupiedCoords piece.layout),
            ¬(i = rc.1 + 1 ∧ j = rc.2 + 1) := by
          intro rc hrc hcontra
          exact hsh ⟨rc, hrc, hcontra⟩
        rw [hraw2 i j hn, hraw1 i j hn]
    cases hbi : b.tiles[i]? with
    | none =>
      rw [hbi] at hrowlen
      exact Option.map_eq_none.mp hrowlen
    | some row =>
      rw [hbi] at hrowlen
      cases hti : t2[i]? with
      | none => rw [hti] at hrowlen; cases hrowlen
      | some row2 =>
        rw [hti] at hrowlen
        injection hrowlen with hrowlen
        congr 1
        apply List.ext_getElem?
        intro j
        have := hcellEq j
        rw [tileGet, tileGet, hbi, hti, Option.some_bind, Option.some_bind] at this
        exact this

/-- Counterexample to C4 as stated: on `creditedBoard`, whose single playable
tile is `Empty(White)` (a legal target for a white piece), placing a white
tavern and removing it through its anchor returns the tile as `Empty(None)`,
so the tile grid is not restored bit-for-bit. -/
theorem place_remove_not_inverse_on_credited_tile :
    ((creditedBoard.tryPlacePieceAt (newTavern Team.White) ⟨0, 0⟩).bind fun s1 =>
      (s1.2.tryRemovePiece ((newTavern Team.White).placedAt ⟨0, 0⟩) ⟨0, 0⟩).map
        fun s2 => (s1.1, s2.1, s2.2.tiles)) =
      some (Except.ok (), Except.ok ((newTavern Team.White).placedAt ⟨0, 0⟩).released,
        [[Tile.Wall, Tile.Wall, Tile.Wall],
         [Tile.Wall, Tile.Empty Team.None, Tile.Wall],
         [Tile.Wall, Tile.Wall, Tile.Wall]]) ∧
    ([[Tile.Wall, Tile.Wall, Tile.Wall],
      [Tile.Wall, Tile.Empty Team.None, Tile.Wall],
      [Tile.Wall, Tile.Wall, Tile.Wall]] : Tiles) ≠ creditedBoard.tiles :=
  ⟨rfl, by decide⟩

/-- Witness for `place_remove_roundtrip`: a white tavern placed at the origin
of a fresh 1×1 board and removed again restores the grid. -/
theorem place_remove_roundtrip_witness :
    ∃ b1 b2, (Board.withSize 1).tryPlacePieceAt (newTavern Team.White) ⟨0, 0⟩ =
        some (Except.ok (), b1) ∧
      b1.tryRemovePiece ((newTavern Team.White).placedAt ⟨0, 0⟩)
          (Position.mk 0 0 + Position.mk 0 0) =
        some (Except.ok ((newTavern Team.White).placedAt ⟨0, 0⟩).released, b2) ∧
      b2.tiles = (Board.withSize 1).tiles :=
  place_remove_roundtrip (Board.withSize 1) (newTavern Team.White) ⟨0, 0⟩
    ⟨0, 0⟩ [] rfl rfl (by decide)

/-- C8: for every piece kind of the catalog, every team the constructor
accepts, and every starting orientation (any number of prior rotations), four
consecutive clockwise rotations reproduce the shape bit-for-bit, and likewise
four consecutive counterclockwise rotations. -/
theorem rotation_fourfold_identity (k : PieceKind) (t : Team) (n : Nat) (sh : Layout)
    (h : pieceShape k t = some sh) :
    rotateLayoutCW^[4] (rotateLayoutCW^[n] sh) = rotateLayoutCW^[n] sh ∧
    rotateLayoutCCW^[4] (rotateLayoutCCW^[n] sh) = rotateLayoutCCW^[n] sh := by
  have hbase : rotateLayoutCW^[4] sh = sh ∧ rotateLayoutCCW^[4] sh = sh := by
    cases k <;> cases t <;>
      simp [pieceShape, newTavern, newStable, newInn, newBridge, newSquare,
        newManor, newAbbey, newAcademy, newInfirmary, newCastle, newTower,
        newCathedral, abbeyWhiteLayout, abbeyBlackLayout, academyWhiteLayout,
        academyBlackLayout] at h <;>
      subst h <;>
      exact ⟨by decide, by decide⟩
  constructor
  · rw [← Function.iterate_add_apply, Nat.add_comm, Function.iterate_add_apply,
        hbase.1]
  · rw [← Function.iterate_add_apply, Nat.add_comm, Function.iterate_add_apply,
        hbase.2]

/-- Witness for `rotation_fourfold_identity`: the white inn, one clockwise
rotation in. -/
theorem rotation_fourfold_identity_witness :
    rotateLayoutCW^[4] (rotateLayoutCW^[1] (newInn Team.White).layout) =
        rotateLayoutCW^[1] (newInn Team.White).layout ∧
    rotateLayoutCCW^[4] (rotateLayoutCCW^[1] (newInn Team.White).layout) =
        rotateLayoutCCW^[1] (newInn Team.White).layout :=
  rotation_fourfold_identity PieceKind.inn Team.White 1 (newInn Team.White).layout rfl

theorem oAS_inrange (x : Nat) (t : Int) (h0 : 0 ≤ (x : Int) + t)
    (hW : (x : Int) + t < (USIZE_CARD : Int)) :
    overflowingAddSigned x t = (((x : Int) + t).toNat, false) := by
  rw [overflowingAddSigned]
  rw [if_neg (by omega), if_neg (by omega)]

theorem oAS_flag_true (x : Nat) (t : Int)
    (h : (x : Int) + t < 0 ∨ (USIZE_CARD : Int) ≤ (x : Int) + t) :
    (overflowingAddSigned x t).2 = true := by
  rw [overflowingAddSigned]
  rcases h with h | h
  · rw [if_pos h]
  · rw [if_neg (by omega), if_pos h]

theorem adjacent_elem_iff (p upperBound : Position) (d : Int × Int) (q : Position)
    (hux : upperBound.x ≤ USIZE_CARD) (huy : upperBound.y ≤ USIZE_CARD) :
    ((if (overflowingAddSigned p.x d.1).2 then none
      else if upperBound.x ≤ (overflowingAddSigned p.x d.1).1 then none
      else if (overflowingAddSigned p.y d.2).2 then none
      else if upperBound.y ≤ (overflowingAddSigned p.y d.2).1 then none
      else some (Position.mk (overflowingAddSigned p.x d.1).1
        (overflowingAddSigned p.y d.2).1)) = some q) ↔
      inRangeNeighbor p upperBound d q := by
  obtain ⟨qx, qy⟩ := q
  simp only [inRangeNeighbor]
  have huxI : (upperBound.x : Int) ≤ (USIZE_CARD : Int) := by exact_mod_cast hux
  have huyI : (upperBound.y : Int) ≤ (USIZE_CARD : Int) := by exact_mod_cast huy
  by_cases hx : 0 ≤ (p.x : Int) + d.1 ∧ (p.x : Int) + d.1 < (USIZE_CARD : Int)
  · rw [oAS_inrange p.x d.1 hx.1 hx.2]
    by_cases hy : 0 ≤ (p.y : Int) + d.2 ∧ (p.y : Int) + d.2 < (USIZE_CARD : Int)
    · rw [oAS_inrange p.y d.2 hy.1 hy.2]
      show ((if upperBound.x ≤ ((p.x : Int) + d.1).toNat then none
        else if upperBound.y ≤ ((p.y : Int) + d.2).toNat then none
        else some (Position.mk ((p.x : Int) + d.1).toNat
          ((p.y : Int) + d.2).toNat)) = some (Position.mk qx qy)) ↔ _
      split_ifs with h1 h2
      · refine iff_of_false (fun hcontra => by cases hcontra) (fun hr => ?_)
        have := hr.2.1
        omega
      · refine iff_of_false (fun hcontra => by cases hcontra) (fun hr => ?_)
        have := hr.2.2.2.1
        omega
      · rw [Option.some_inj, Position.mk.injEq]
        constructor
        · rintro ⟨rfl, rfl⟩
          exact ⟨hx.1, by omega, hy.1, by omega, by omega, by omega⟩
        · rintro ⟨-, hxu, -, hyu, hqx, hqy⟩
          constructor <;> omega
    · rw [oAS_flag_true p.y d.2 (by omega)]
      show ((if upperBound.x ≤ ((p.x : Int) + d.1).toNat then none
        else (none : Option Position)) = some (Position.mk qx qy)) ↔ _
      split_ifs
      all_goals refine iff_of_false (fun hcontra => by cases hcontra) (fun hr => ?_)
      all_goals exact hy ⟨hr.2.2.1, by have := hr.2.2.2.1; omega⟩
  · rw [oAS_flag_true p.x d.1 (by omega)]
    show ((none : Option Position) = some (Position.mk qx qy)) ↔ _
    refine iff_of_false (fun hcontra => by cases hcontra) (fun hr => ?_)
    exact hx ⟨hr.1, by have := hr.2.1; omega⟩

theorem adjacentPositionsIter_mem_iff (p upperBound : Position)
    (coords : List (Int × Int)) (q : Position)
    (hux : upperBound.x ≤ USIZE_CARD) (huy : upperBound.y ≤ USIZE_CARD) :
    q ∈ p.adjacentPositionsIter upperBound coords ↔
      ∃ d ∈ coords, inRangeNeighbor p upperBound d q := by
  rw [Position.adjacentPositionsIter, List.mem_filterMap]
  constructor
  · rintro ⟨d, hd, hf⟩
    exact ⟨d, hd, (adjacent_elem_iff p upperBound d q hux huy).mp hf⟩
  · rintro ⟨d, hd, hr⟩
    exact ⟨d, hd, (adjacent_elem_iff p upperBound d q hux huy).mpr hr⟩

/-- C9: for every position and upper bound (any `usize` values), the diagonal
(8-neighbour) and orthogonal (4-neighbour) iterators produce exactly the
in-range neighbours: a position is produced iff it is the base position
shifted by one of the offsets with neither ideal coordinate below 0 nor at or
above the upper bound on its axis, and no out-of-range position is ever
produced. -/
theorem adjacency_iterators_spec (p upperBound q : Position)
    (hux : upperBound.x ≤ USIZE_CARD) (huy : upperBound.y ≤ USIZE_CARD) :
    (q ∈ p.diagonalAdjacentPositionsIter upperBound ↔
      ∃ d ∈ diagonalOffsets, inRangeNeighbor p upperBound d q) ∧
    (q ∈ p.orthogonalAdjacentPositionsIter upperBound ↔
      ∃ d ∈ orthogonalOffsets, inRangeNeighbor p upperBound d q) ∧
    (q ∈ p.diagonalAdjacentPositionsIter upperBound →
      q.x < upperBound.x ∧ q.y < upperBound.y) ∧
    (q ∈ p.orthogonalAdjacentPositionsIter upperBound →
      q.x < upperBound.x ∧ q.y < upperBound.y) := by
  have hdiag := adjacentPositionsIter_mem_iff p upperBound diagonalOffsets q hux huy
  have horth := adjacentPositionsIter_mem_iff p upperBound orthogonalOffsets q hux huy
  refine ⟨hdiag, horth, ?_, ?_⟩
  · intro hq
    obtain ⟨d, -, hr⟩ := hdiag.mp hq
    obtain ⟨-, hxu, -, hyu, hqx, hqy⟩ := hr
    constructor <;> omega
  · intro hq
    obtain ⟨d, -, hr⟩ := horth.mp hq
    obtain ⟨-, hxu, -, hyu, hqx, hqy⟩ := hr
    constructor <;> omega

/-- Witness for `adjacency_iterators_spec`: from `(0, 0)` with upper bound
`(10, 10)`, the diagonal neighbour `(1, 1)` is produced. -/
theorem adjacency_iterators_spec_witness :
    (⟨1, 1⟩ : Position) ∈ Position.diagonalAdjacentPositionsIter ⟨0, 0⟩ ⟨10, 10⟩ :=
  (adjacency_iterators_spec ⟨0, 0⟩ ⟨10, 10⟩ ⟨1, 1⟩ (by decide) (by decide)).1.mpr
    ⟨(1, 1), by decide, by decide, by decide, by decide, by decide, by decide, by decide⟩

theorem mapM_boardAdjacent_none (l : List Position) (c : Position) (hc : c ∈ l)
    (hcz : c.x = 0 ∨ c.y = 0) :
    l.mapM boardAdjacentPositions = none := by
  induction l with
  | nil => cases hc
  | cons a rest ih =>
    rw [List.mapM_cons]
    rcases List.mem_cons.mp hc with rfl | hmem
    · rw [boardAdjacentPositions, if_pos hcz]
      rfl
    · cases ha : boardAdjacentPositions a with
      | none => rfl
      | some la =>
        rw [ih hmem]
        rfl

/-- C2 (code bug): the region query is broken at its first step.
`tile_groups` seeds the search from positions adjacent to the piece's *local*
layout coordinates — never translated by the piece's board position — and
`Board::adjacent_positions` decrements `usize` coordinates unchecked, so for
every placed piece whose layout occupies a cell in row 0 or column 0 (every
catalog piece, in every rotation) the computation panics (modelled `none`)
instead of returning sets of capturable positions. -/
theorem tileGroups_panics (b : Board) (piece : PieceP) (c : Position)
    (hc : c ∈ occupiedCoords piece.layout) (hcz : c.x = 0 ∨ c.y = 0) :
    b.tileGroups piece = none := by
  rw [Board.tileGroups]
  rw [mapM_boardAdjacent_none (occupiedCoords piece.layout) c hc hcz]
  rfl

/-- Witness for `tileGroups_panics`: a white tavern placed at `(5, 5)` on the
default board. -/
theorem tileGroups_panics_witness :
    (Board.withSize 10).tileGroups ((newTavern Team.White).placedAt ⟨5, 5⟩) = none :=
  tileGroups_panics (Board.withSize 10) ((newTavern Team.White).placedAt ⟨5, 5⟩)
    ⟨0, 0⟩ (by decide) (by decide)

/-- C3 (code bug): the spec's own example — a single white inn legally placed
with anchor `(8, 8)` on an otherwise empty 10×10 board — does not yield two
capturable regions of sizes 1 and 96: the region query panics (modelled as
`none`), because it reads the piece's local layout coordinates instead of its
board cells and underflows at the layout's row 0. -/
theorem tileGroups_inn_example_panics :
    (((Board.withSize 10).tryPlacePieceAt (newInn Team.White) ⟨8, 8⟩).map fun s =>
      (s.1, s.2.tileGroups ((newInn Team.White).placedAt ⟨8, 8⟩))) =
      some (Except.ok (), none) := by rfl

/-- C10 (code bug): the registry invariant fails after two legal placements.
A white tavern placed at `(0, 2)` occupies view cell `(2, 0)` and is
registered under anchor `(0, 2)`; a white academy placed at `(0, 0)` — fully
disjoint from the tavern on the grid — computes the same anchor `(0, 2)`
(the anchor addition `position + first_occupied` mixes the axes that tile
indexing swaps), so `HashMap::insert` silently replaces the tavern's entry.
Afterwards the tile at view cell `(2, 0)` is `Occupied(White)` but is covered
by no registry entry, and the registry holds a single entry. -/
theorem registry_invariant_violated :
    (((Board.withSize 10).tryPlacePieceAt (newTavern Team.White) ⟨0, 2⟩).bind fun s1 =>
      ((newAcademy Team.White).bind fun a =>
        s1.2.tryPlacePieceAt a ⟨0, 0⟩).map fun s2 =>
        (s1.1, s2.1, interactiveGet s2.2.tiles 2 0, registryCoversCell s2.2 (2, 0),
          s2.2.pieces.length)) =
      some (Except.ok (), Except.ok (), some (Tile.Occupied Team.White), false, 1) := by
  rfl
